import Mathlib

/-!
Shallow embedding of the Hawala & Illicit Flow Analytics Dashboard
(`src/app.py`) and its silent backend (`src/multihop_backend.py`).

Modelling conventions:
* A cleaned transaction row (the loader's `dropna`/`to_datetime` cleaning is
  out of scope) is a `Record`; Python float amounts are modelled as exact
  rationals, timestamps as integers counting hours (pandas timestamps have
  sub-day resolution, and a pandas time-delta's `.days` field is the floor of
  the span divided by 24 hours; on the nonnegative spans arising here the
  integer division `/` below is exactly that floor).
* `nx.DiGraph` collapses parallel edges: its edge set is the set of distinct
  (source, destination) pairs (`edge_list`), and `add_edge` overwrites
  attributes so an edge carries the date of the last record for its pair
  (`edge_date`).
* `nx.shortest_path_length` returns the number of edges of a shortest path;
  `nx.shortest_path` returns one shortest node sequence.  They are modelled
  by breadth-first reachability balls (`ball`, `dist_opt`) and predecessor
  reconstruction (`path_to`); `none` models the `NetworkXNoPath` exception
  that both callers swallow.
* `list(nx.simple_cycles(G))` enumerates every simple directed cycle of the
  graph, each as a duplicate-free node list (self-loops appear as one-node
  cycles); it is modelled by filtering all duplicate-free node sequences.
* A Python expression that can raise `ZeroDivisionError` is modelled in
  `Option`: `none` is the raised exception.
-/

/-- One cleaned transaction row: `source_code`, `destination_code`,
`cc1 lcu amount`, `date` (in hours). -/
structure Record where
  source : String
  dest : String
  amount : ℚ
  date : ℤ
deriving DecidableEq

/-- Node set of the `nx.DiGraph`: every source or destination code seen. -/
def nodes (rs : List Record) : List String :=
  ((rs.map Record.source) ++ (rs.map Record.dest)).dedup

/-- Edge membership of the `nx.DiGraph` built by repeated `add_edge`. -/
def has_edge (rs : List Record) (u v : String) : Bool :=
  rs.any (fun r => r.source == u && r.dest == v)

/-- The distinct (source, destination) pairs: the edge set of the DiGraph. -/
def edge_list (rs : List Record) : List (String × String) :=
  (rs.map (fun r => (r.source, r.dest))).dedup

/-- `G.number_of_edges()` (called `total_transactions` in the backend). -/
def total_edges (rs : List Record) : ℕ :=
  (edge_list rs).length

/-- the `date` attribute of edge (u, v): `add_edge` overwrites attributes,
so the last record for the pair wins. -/
def edge_date (rs : List Record) (u v : String) : Option ℤ :=
  ((rs.filter (fun r => r.source == u && r.dest == v)).map Record.date).getLast?

/-- Nodes reachable from `s` in at most `k` edges (breadth-first ball). -/
def ball (rs : List Record) (s : String) : ℕ → List String
  | 0 => [s]
  | k + 1 =>
      (ball rs s k ++ (nodes rs).filter (fun v =>
        (ball rs s k).any (fun u => has_edge rs u v))).dedup

/-- `nx.shortest_path_length(G, s, t)`: the number of edges on a shortest
path, `none` when `t` is unreachable from `s` (`NetworkXNoPath`). -/
def dist_opt (rs : List Record) (s t : String) : Option ℕ :=
  (List.range ((nodes rs).length + 1)).find? (fun k => (ball rs s k).contains t)

/-- `multi_hop_pairs` of `src/app.py` (lines 51-60): ordered pairs of
distinct nodes whose shortest-path length (edge count) is at least 3. -/
def multi_hop_pairs (rs : List Record) : List (String × String) :=
  ((nodes rs).flatMap (fun s => (nodes rs).map (fun t => (s, t)))).filter
    (fun p => p.1 != p.2 && decide (3 ≤ (dist_opt rs p.1 p.2).getD 0))

/-- `multi_hop_rate` of `src/app.py` (line 62). -/
def multi_hop_rate (rs : List Record) : ℚ :=
  if total_edges rs = 0 then 0
  else (multi_hop_pairs rs).length / total_edges rs

/-- The directed edges traversed by a cycle given as a node list, the
wrap-around edge included: `(c[i], c[(i + 1) % len(c)])` of `src/app.py`. -/
def cycle_pairs (c : List String) : List (String × String) :=
  (List.range c.length).map (fun i => (c.getD i "", c.getD ((i + 1) % c.length) ""))

/-- A simple directed cycle as enumerated by `nx.simple_cycles`: a nonempty
duplicate-free node list all of whose traversed edges (wrap-around included)
are edges of the graph. -/
def IsSimpleCycle (rs : List Record) (c : List String) : Prop :=
  c ≠ [] ∧ c.Nodup ∧ ∀ e ∈ cycle_pairs c, has_edge rs e.1 e.2 = true

instance (rs : List Record) (c : List String) : Decidable (IsSimpleCycle rs c) := by
  unfold IsSimpleCycle
  infer_instance

/-- All duplicate-free sequences over the node set (the candidate space of
the cycle enumeration). -/
def all_seqs (rs : List Record) : List (List String) :=
  (nodes rs).sublists.flatMap List.permutations'

/-- `list(nx.simple_cycles(G))` of `src/app.py` (line 67): the complete,
unbudgeted enumeration of the simple cycles of the graph (every simple cycle
is present, here once per rotation). -/
def simple_cycles (rs : List Record) : List (List String) :=
  (all_seqs rs).filter (fun c => decide (IsSimpleCycle rs c))

/-- `cycle_edges` of `src/app.py` (lines 69-72). -/
def cycle_edges (rs : List Record) : List (String × String) :=
  ((simple_cycles rs).flatMap cycle_pairs).dedup

/-- `circular_rate` of `src/app.py` (line 74). -/
def circular_rate (rs : List Record) : ℚ :=
  if total_edges rs = 0 then 0
  else (cycle_edges rs).length / total_edges rs

/-- Round a rational to the nearest integer, ties to the even integer
(the rounding used by `Series.round`, i.e. numpy half-to-even). -/
def roundHalfEven (q : ℚ) : ℤ :=
  if q - ⌊q⌋ < 1 / 2 then ⌊q⌋
  else if 1 / 2 < q - ⌊q⌋ then ⌊q⌋ + 1
  else if ⌊q⌋ % 2 = 0 then ⌊q⌋ else ⌊q⌋ + 1

/-- `df["rounded_amount"]` of `src/app.py` (line 79): the amount rounded to
the nearest 100 (`round(-2)`). -/
def rounded_amount (r : Record) : ℤ := 100 * roundHalfEven (r.amount / 100)

/-- `mirrored_df.shape[0]` of `src/app.py` (line 80): rows whose
rounded-amount group has size greater than 3 (`groupby/filter`). -/
def mirrored_count (rs : List Record) : ℕ :=
  (rs.filter (fun r =>
    decide (3 < rs.countP (fun r2 => rounded_amount r2 == rounded_amount r)))).length

/-- `mirrored_rate` of `src/app.py` (line 82): the division has no zero
guard, so the empty frame raises (`none`). -/
def mirrored_rate (rs : List Record) : Option ℚ :=
  if rs.length = 0 then none
  else some ((mirrored_count rs : ℚ) / (rs.length : ℚ))

/-- `df["corridor"]` of `src/app.py` (line 87). -/
def corridor (r : Record) : String := r.source ++ " → " ++ r.dest

/-- The distinct corridor keys (`df["corridor"].nunique()` is its length). -/
def corridor_list (rs : List Record) : List String := (rs.map corridor).dedup

/-- Insertion step of the descending sort on (corridor, count) pairs. -/
def insert_desc (x : String × ℕ) : List (String × ℕ) → List (String × ℕ)
  | [] => [x]
  | y :: ys => if y.2 ≤ x.2 then x :: y :: ys else y :: insert_desc x ys

/-- `sort_values(ascending=False)` on the per-corridor counts. -/
def sort_desc : List (String × ℕ) → List (String × ℕ)
  | [] => []
  | x :: xs => insert_desc x (sort_desc xs)

/-- `corridor_counts` of `src/app.py` (lines 89-94): per-corridor sizes,
sorted descending, `.head(15)`. -/
def corridor_counts (rs : List Record) : List (String × ℕ) :=
  (sort_desc ((corridor_list rs).map
    (fun c => (c, rs.countP (fun r => corridor r == c))))).take 15

/-- `corridor_rate` of `src/app.py` (line 96): no zero guard on
`nunique()`, so the empty frame raises (`none`). -/
def corridor_rate (rs : List Record) : Option ℚ :=
  if (corridor_list rs).length = 0 then none
  else some (((corridor_counts rs).length : ℚ) / ((corridor_list rs).length : ℚ))

/-- `hawala_rate` of `src/app.py` (lines 109-114), the composite score; it
is only reached when the two unguarded divisions before it succeed. -/
def hawala_rate (rs : List Record) : Option ℚ := do
  let m ← mirrored_rate rs
  let c ← corridor_rate rs
  pure (0.35 * multi_hop_rate rs + 0.30 * circular_rate rs + 0.20 * m + 0.15 * c)

/-- Reconstruction of the node sequence of a shortest path of exactly `k`
edges from `s` to `t` (models the path `nx.shortest_path` returns, up to
tie-breaking among equally short predecessors). -/
def path_to (rs : List Record) (s : String) : ℕ → String → Option (List String)
  | 0, t => if t = s then some [s] else none
  | k + 1, t =>
      match (nodes rs).find? (fun u => has_edge rs u t && (dist_opt rs s u == some k)) with
      | some u => (path_to rs s k u).map (fun q => q ++ [t])
      | none => none

/-- `nx.shortest_path(G, src, dst)` in `src/multihop_backend.py` (line 65):
one shortest node sequence, `none` on `NetworkXNoPath`. -/
def shortest_path (rs : List Record) (s t : String) : Option (List String) :=
  (dist_opt rs s t).bind (fun k => path_to rs s k t)

/-- `edge_dates` of `src/multihop_backend.py` (lines 74-78): the `date`
attribute of each traversed edge of the path, where present. -/
def path_dates (rs : List Record) (p : List String) : List ℤ :=
  (List.range (p.length - 1)).filterMap
    (fun i => edge_date rs (p.getD i "") (p.getD (i + 1) ""))

/-- `max(edge_dates)` (0 on the empty list; only used on nonempty lists). -/
def list_max : List ℤ → ℤ
  | [] => 0
  | d :: ds => ds.foldl max d

/-- `min(edge_dates)` (0 on the empty list; only used on nonempty lists). -/
def list_min : List ℤ → ℤ
  | [] => 0
  | d :: ds => ds.foldl min d

/-- `if edge_dates: if (max(edge_dates) - min(edge_dates)).days <= 7` of
`src/multihop_backend.py` (lines 80-81); `.days` floors the span. -/
def window_ok (ds : List ℤ) : Bool :=
  !ds.isEmpty && decide ((list_max ds - list_min ds) / 24 ≤ 7)

/-- One iteration of the nested src/dst loop of
`src/multihop_backend.py` (lines 59-82): skip `src == dst`, skip
unreachable pairs, skip too-short paths, then apply the time-window test. -/
def suspicious_check (rs : List Record) (src dst : String) : Option (List String) :=
  if src = dst then none
  else
    match shortest_path rs src dst with
    | none => none
    | some p =>
        if 3 ≤ p.length ∧ window_ok (path_dates rs p) = true then some p
        else none

/-- `suspicious_paths` of `src/multihop_backend.py` (lines 55-82). -/
def suspicious_paths (rs : List Record) : List (List String) :=
  (nodes rs).flatMap (fun src =>
    (nodes rs).filterMap (fun dst => suspicious_check rs src dst))

/-- `unique_suspicious_pairs` of `src/multihop_backend.py` (lines 87-89). -/
def unique_suspicious_pairs (rs : List Record) : List (String × String) :=
  ((suspicious_paths rs).map (fun p => (p.headD "", p.getLastD ""))).dedup

/-- `suspicious_rate` of `src/multihop_backend.py` (lines 93-96), returned
as `multihop_suspicion_rate`. -/
def multihop_suspicion_rate (rs : List Record) : ℚ :=
  if total_edges rs = 0 then 0
  else ((unique_suspicious_pairs rs).length : ℚ) / (total_edges rs : ℚ)

/-- the hypothesis of the direct-edges-only scenario: every ordered pair of
nodes is at shortest-path distance at most 1 edge (so every shortest path
has at most 2 nodes). -/
def DirectOnly (rs : List Record) : Prop :=
  ∀ s ∈ nodes rs, ∀ t ∈ nodes rs, (dist_opt rs s t).getD 0 ≤ 1

instance (rs : List Record) : Decidable (DirectOnly rs) := by
  unfold DirectOnly
  infer_instance

/-- Size of the bucket of rounded amount `b` (spec wording of §4.4). -/
def bucket_size (rs : List Record) (b : ℤ) : ℕ :=
  rs.countP (fun r => rounded_amount r == b)

/-- The flagged ("mirrored") buckets: rounded amounts whose bucket has more
than 3 records (spec wording of §4.4). -/
def flagged_buckets (rs : List Record) : Finset ℤ :=
  (rs.map rounded_amount).toFinset.filter (fun b => 3 < bucket_size rs b)

/-- Helper to build concrete rows. -/
def mk (s d : String) (a : ℚ) (t : ℤ) : Record := ⟨s, d, a, t⟩

/-- C2 input: three records, the pair (A, B) duplicated. -/
def exDup : List Record := [mk "A" "B" 0 0, mk "B" "C" 0 0, mk "A" "B" 0 0]

/-- C3 input: the two-edge chain A→B→C. -/
def exChain : List Record := [mk "A" "B" 0 0, mk "B" "C" 0 0]

/-- C4 input: chain A→B→C with a timestamp span of 169 hours (7 days and
1 hour). -/
def exWin : List Record := [mk "A" "B" 0 0, mk "B" "C" 0 169]

/-- C5 input: exactly one 3-cycle A→B→C→A. -/
def exCycle : List Record := [mk "A" "B" 0 0, mk "B" "C" 0 0, mk "C" "A" 0 0]

/-- C6 input: a single self-referencing transaction. -/
def exSelf : List Record := [mk "A" "A" 0 0]

/-- C7 input: the amount list [100, 100, 100, 100, 250]. -/
def exMirror : List Record :=
  [mk "a" "z" 100 0, mk "b" "z" 100 0, mk "c" "z" 100 0,
   mk "d" "z" 100 0, mk "e" "z" 250 0]

/-- C8 input: `n` records in `n` distinct corridors. -/
def exCorr (n : ℕ) : List Record :=
  (List.range n).map (fun i => mk (toString i) "z" 0 0)

/-- single-edge input, used to discharge hypotheses in witnesses. -/
def exEdge : List Record := [mk "A" "B" 0 0]

/-! Helper lemmas about the embedded graph, paths and cycles. -/

theorem has_edge_mem_nodes {rs : List Record} {u v : String}
    (h : has_edge rs u v = true) : u ∈ nodes rs ∧ v ∈ nodes rs := by
  simp only [has_edge, List.any_eq_true, Bool.and_eq_true, beq_iff_eq] at h
  obtain ⟨r, hr, hu, hv⟩ := h
  subst hu
  subst hv
  constructor
  · simp only [nodes, List.mem_dedup, List.mem_append, List.mem_map]
    exact Or.inl ⟨r, hr, rfl⟩
  · simp only [nodes, List.mem_dedup, List.mem_append, List.mem_map]
    exact Or.inr ⟨r, hr, rfl⟩

theorem mem_edge_list_iff {rs : List Record} {u v : String} :
    (u, v) ∈ edge_list rs ↔ has_edge rs u v = true := by
  simp [edge_list, has_edge, List.mem_dedup, List.mem_map, List.any_eq_true,
    Prod.ext_iff]

theorem mem_cycle_pairs {c : List String} {e : String × String} :
    e ∈ cycle_pairs c ↔
      ∃ i < c.length, e = (c.getD i "", c.getD ((i + 1) % c.length) "") := by
  simp only [cycle_pairs, List.mem_map, List.mem_range]
  constructor
  · rintro ⟨i, hi, rfl⟩
    exact ⟨i, hi, rfl⟩
  · rintro ⟨i, hi, rfl⟩
    exact ⟨i, hi, rfl⟩

theorem mem_all_seqs {rs : List Record} {c : List String}
    (hnd : c.Nodup) (hsub : ∀ x ∈ c, x ∈ nodes rs) : c ∈ all_seqs rs := by
  obtain ⟨l, hl1, hl2⟩ := hnd.subperm hsub
  simp only [all_seqs, List.mem_flatMap]
  exact ⟨l, List.mem_sublists.mpr hl2, List.mem_permutations'.mpr hl1.symm⟩

theorem mem_simple_cycles {rs : List Record} {c : List String} :
    c ∈ simple_cycles rs ↔ c ∈ all_seqs rs ∧ IsSimpleCycle rs c := by
  simp [simple_cycles, List.mem_filter]

theorem simple_cycles_complete {rs : List Record} {c : List String}
    (h : IsSimpleCycle rs c) : c ∈ simple_cycles rs := by
  refine mem_simple_cycles.mpr ⟨mem_all_seqs h.2.1 ?_, h⟩
  intro x hx
  obtain ⟨i, hi, hget⟩ := List.mem_iff_getElem.mp hx
  have hpair : (c.getD i "", c.getD ((i + 1) % c.length) "") ∈ cycle_pairs c :=
    mem_cycle_pairs.mpr ⟨i, hi, rfl⟩
  have hedge := h.2.2 _ hpair
  have hmem := (has_edge_mem_nodes hedge).1
  rwa [List.getD_eq_getElem c "" hi, hget] at hmem

theorem mem_cycle_edges {rs : List Record} {e : String × String} :
    e ∈ cycle_edges rs ↔ ∃ c, IsSimpleCycle rs c ∧ e ∈ cycle_pairs c := by
  simp only [cycle_edges, List.mem_dedup, List.mem_flatMap]
  constructor
  · rintro ⟨c, hc, he⟩
    exact ⟨c, (mem_simple_cycles.mp hc).2, he⟩
  · rintro ⟨c, hc, he⟩
    exact ⟨c, simple_cycles_complete hc, he⟩

theorem cycle_edges_subset {rs : List Record} {e : String × String}
    (h : e ∈ cycle_edges rs) : e ∈ edge_list rs := by
  obtain ⟨c, hc, he⟩ := mem_cycle_edges.mp h
  have hedge := hc.2.2 e he
  obtain ⟨u, v⟩ := e
  exact mem_edge_list_iff.mpr hedge

theorem cycle_edges_length_le (rs : List Record) :
    (cycle_edges rs).length ≤ total_edges rs :=
  ((List.nodup_dedup _).subperm (fun _ he => cycle_edges_subset he)).length_le

theorem getD_zero_ge_three_iff {o : Option ℕ} :
    3 ≤ o.getD 0 ↔ ∃ k, o = some k ∧ 3 ≤ k := by
  cases o <;> simp

theorem mem_multi_hop_pairs {rs : List Record} {s t : String} :
    (s, t) ∈ multi_hop_pairs rs ↔
      s ∈ nodes rs ∧ t ∈ nodes rs ∧ s ≠ t ∧
        ∃ k, dist_opt rs s t = some k ∧ 3 ≤ k := by
  constructor
  · intro h
    obtain ⟨hmem, hcond⟩ := List.mem_filter.mp h
    simp only [List.mem_flatMap, List.mem_map] at hmem
    obtain ⟨a, ha, b, hb, hab⟩ := hmem
    obtain ⟨rfl, rfl⟩ : a = s ∧ b = t := by
      cases hab
      exact ⟨rfl, rfl⟩
    simp only [Bool.and_eq_true, bne_iff_ne, decide_eq_true_eq] at hcond
    exact ⟨ha, hb, hcond.1, getD_zero_ge_three_iff.mp hcond.2⟩
  · rintro ⟨hs, ht, hst, k, hk, h3⟩
    refine List.mem_filter.mpr ⟨?_, ?_⟩
    · simp only [List.mem_flatMap, List.mem_map]
      exact ⟨s, hs, t, ht, rfl⟩
    · simp only [Bool.and_eq_true, bne_iff_ne, decide_eq_true_eq]
      exact ⟨hst, getD_zero_ge_three_iff.mpr ⟨k, hk, h3⟩⟩

theorem path_to_spec {rs : List Record} {s : String} :
    ∀ (k : ℕ) (t : String) (p : List String), path_to rs s k t = some p →
      p.length = k + 1 ∧ p.headD "" = s ∧ p.getLastD "" = t := by
  intro k
  induction k with
  | zero =>
      intro t p h
      simp only [path_to] at h
      split at h
      · rename_i hts
        obtain rfl : [s] = p := by injection h
        exact ⟨rfl, rfl, by rw [hts]; rfl⟩
      · cases h
  | succ k ih =>
      intro t p h
      simp only [path_to] at h
      split at h
      · rename_i u hu
        rw [Option.map_eq_some'] at h
        obtain ⟨q, hq, rfl⟩ := h
        obtain ⟨hlen, hhead, hlast⟩ := ih u q hq
        have hq_ne : q ≠ [] := by
          intro hnil
          rw [hnil] at hlen
          simp at hlen
        refine ⟨by simp [hlen], ?_, by simp [List.getLastD_concat]⟩
        cases q with
        | nil => exact absurd rfl hq_ne
        | cons x xs => simpa using hhead
      · cases h

theorem shortest_path_eq_some {rs : List Record} {s t : String} {p : List String}
    (h : shortest_path rs s t = some p) :
    ∃ k, dist_opt rs s t = some k ∧ p.length = k + 1 ∧
      p.headD "" = s ∧ p.getLastD "" = t := by
  unfold shortest_path at h
  rw [Option.bind_eq_some] at h
  obtain ⟨k, hk, hp⟩ := h
  obtain ⟨h1, h2, h3⟩ := path_to_spec k t p hp
  exact ⟨k, hk, h1, h2, h3⟩

theorem window_ok_iff {ds : List ℤ} :
    window_ok ds = true ↔ ds ≠ [] ∧ (list_max ds - list_min ds) / 24 ≤ 7 := by
  simp [window_ok, List.isEmpty_iff]

theorem suspicious_check_eq_some {rs : List Record} {src dst : String}
    {p : List String} :
    suspicious_check rs src dst = some p ↔
      src ≠ dst ∧ shortest_path rs src dst = some p ∧ 3 ≤ p.length ∧
        window_ok (path_dates rs p) = true := by
  unfold suspicious_check
  split
  · rename_i hsd
    subst hsd
    simp
  · rename_i hsd
    split
    · rename_i hq
      simp [hsd, hq]
    · rename_i q hq
      split
      · rename_i hcond
        simp only [Option.some.injEq]
        constructor
        · rintro rfl
          exact ⟨hsd, hq, hcond.1, hcond.2⟩
        · rintro ⟨-, hq2, -, -⟩
          rw [hq] at hq2
          injection hq2
      · rename_i hcond
        constructor
        · intro h
          cases h
        · rintro ⟨-, hq2, hl, hw⟩
          rw [hq] at hq2
          injection hq2 with h
          subst h
          exact absurd ⟨hl, hw⟩ hcond

theorem mem_suspicious_paths {rs : List Record} {p : List String} :
    p ∈ suspicious_paths rs ↔
      ∃ src ∈ nodes rs, ∃ dst ∈ nodes rs, src ≠ dst ∧
        shortest_path rs src dst = some p ∧ 3 ≤ p.length ∧
          window_ok (path_dates rs p) = true := by
  simp only [suspicious_paths, List.mem_flatMap, List.mem_filterMap]
  constructor
  · rintro ⟨src, hsrc, dst, hdst, hf⟩
    obtain ⟨hsd, hq, hl, hw⟩ := suspicious_check_eq_some.mp hf
    exact ⟨src, hsrc, dst, hdst, hsd, hq, hl, hw⟩
  · rintro ⟨src, hsrc, dst, hdst, hsd, hq, hl, hw⟩
    exact ⟨src, hsrc, dst, hdst, suspicious_check_eq_some.mpr ⟨hsd, hq, hl, hw⟩⟩

theorem foldl_min_le (ds : List ℤ) : ∀ d : ℤ, ds.foldl min d ≤ d := by
  induction ds with
  | nil => intro d; exact le_refl d
  | cons x ds ih => intro d; exact le_trans (ih (min d x)) (min_le_left d x)

theorem le_foldl_max (ds : List ℤ) : ∀ d : ℤ, d ≤ ds.foldl max d := by
  induction ds with
  | nil => intro d; exact le_refl d
  | cons x ds ih => intro d; exact le_trans (le_max_left d x) (ih (max d x))

theorem list_min_le_list_max {ds : List ℤ} (h : ds ≠ []) :
    list_min ds ≤ list_max ds := by
  cases ds with
  | nil => exact absurd rfl h
  | cons d ds => exact le_trans (foldl_min_le ds d) (le_foldl_max ds d)

theorem mirrored_count_eq_sum_aux (rs : List Record) :
    ∀ m : List Record,
      (∀ a ∈ m, rounded_amount a ∈ (rs.map rounded_amount).toFinset) →
      (m.filter (fun r =>
          decide (3 < rs.countP (fun r2 => rounded_amount r2 == rounded_amount r)))).length
        = ∑ b ∈ flagged_buckets rs, m.countP (fun r => rounded_amount r == b) := by
  intro m
  induction m with
  | nil =>
      intro _
      simp
  | cons a m ih =>
      intro hmem
      have ha : rounded_amount a ∈ (rs.map rounded_amount).toFinset :=
        hmem a (by simp)
      have hm : ∀ x ∈ m, rounded_amount x ∈ (rs.map rounded_amount).toFinset :=
        fun x hx => hmem x (by simp [hx])
      have hrhs : ∀ b : ℤ, (a :: m).countP (fun r => rounded_amount r == b)
          = m.countP (fun r => rounded_amount r == b)
            + if rounded_amount a = b then 1 else 0 := by
        intro b
        rw [List.countP_cons]
        congr 1
        simp [beq_iff_eq]
      simp only [hrhs]
      rw [Finset.sum_add_distrib, ← ih hm,
        Finset.sum_ite_eq (flagged_buckets rs) (rounded_amount a) (fun _ => 1)]
      rw [List.filter_cons]
      by_cases hflag : 3 < bucket_size rs (rounded_amount a)
      · have hin : rounded_amount a ∈ flagged_buckets rs := by
          simp only [flagged_buckets, Finset.mem_filter]
          exact ⟨ha, hflag⟩
        rw [if_pos hin]
        have hpred : decide (3 < rs.countP
            (fun r2 => rounded_amount r2 == rounded_amount a)) = true := by
          simpa [bucket_size] using hflag
        rw [if_pos hpred]
        simp [Nat.add_comm]
      · have hin : rounded_amount a ∉ flagged_buckets rs := by
          simp only [flagged_buckets, Finset.mem_filter]
          rintro ⟨-, h3⟩
          exact hflag h3
        rw [if_neg hin]
        have hpred : decide (3 < rs.countP
            (fun r2 => rounded_amount r2 == rounded_amount a)) ≠ true := by
          simpa [bucket_size] using hflag
        rw [if_neg hpred]
        simp

theorem mirrored_count_eq_sum (rs : List Record) :
    mirrored_count rs = ∑ b ∈ flagged_buckets rs, bucket_size rs b :=
  mirrored_count_eq_sum_aux rs rs
    (fun a ha => by simp only [List.mem_toFinset, List.mem_map]; exact ⟨a, ha, rfl⟩)

theorem roundHalfEven_one : roundHalfEven 1 = 1 := by
  unfold roundHalfEven
  norm_num

theorem roundHalfEven_five_halves : roundHalfEven (5 / 2) = 2 := by
  unfold roundHalfEven
  rw [show ⌊(5 / 2 : ℚ)⌋ = 2 from by norm_num [Int.floor_eq_iff]]
  norm_num

theorem rounded_amount_100 (s d : String) (t : ℤ) :
    rounded_amount (mk s d 100 t) = 100 := by
  unfold rounded_amount mk
  norm_num [roundHalfEven_one]

theorem rounded_amount_250 (s d : String) (t : ℤ) :
    rounded_amount (mk s d 250 t) = 200 := by
  unfold rounded_amount mk
  rw [show (250 : ℚ) / 100 = 5 / 2 by norm_num, roundHalfEven_five_halves]
  norm_num

theorem length_insert_desc (x : String × ℕ) (l : List (String × ℕ)) :
    (insert_desc x l).length = l.length + 1 := by
  induction l with
  | nil => rfl
  | cons y ys ih =>
      unfold insert_desc
      split
      · rfl
      · simp [ih]

theorem length_sort_desc (l : List (String × ℕ)) :
    (sort_desc l).length = l.length := by
  induction l with
  | nil => rfl
  | cons x xs ih => simp [sort_desc, length_insert_desc, ih]

theorem corridor_counts_length (rs : List Record) :
    (corridor_counts rs).length = min 15 (corridor_list rs).length := by
  unfold corridor_counts
  rw [List.length_take, length_sort_desc, List.length_map]

theorem mirrored_count_exMirror : mirrored_count exMirror = 4 := by
  simp [mirrored_count, exMirror, List.countP_cons, List.countP_nil,
    rounded_amount_100, rounded_amount_250, List.filter]

/-! Claim theorems. -/

/-- C1: the claim says an empty transaction list completes normally with all
rates 0.0.  In the code the two graph-based rates are guarded and are 0, but
`mirrored_rate` (`mirrored_df.shape[0] / df.shape[0]`) and `corridor_rate`
(`len(corridor_counts) / df["corridor"].nunique()`) divide by zero with no
guard (`none` models the `ZeroDivisionError`), so the pipeline never reaches
the composite score. -/
theorem c1_empty_pipeline_raises :
    multi_hop_rate [] = 0 ∧ circular_rate [] = 0 ∧
      multihop_suspicion_rate [] = 0 ∧ mirrored_rate [] = none ∧
      corridor_rate [] = none ∧ hawala_rate [] = none :=
  ⟨by decide, by decide, by decide, by decide, by decide, by decide⟩

/-- C2 counterexample: on three records with the pair (A, B) duplicated, the
backend rate is 1/2 (numerator 1 suspicious pair divided by the 2 distinct
graph edges), not 1/3 (divided by the 3 transaction records as claimed). -/
theorem c2_counterexample :
    multihop_suspicion_rate exDup = 1 / 2 ∧
      (unique_suspicious_pairs exDup).length = 1 ∧ exDup.length = 3 ∧
      multihop_suspicion_rate exDup ≠ 1 / 3 := by
  have h1 : total_edges exDup = 2 := by decide
  have h2 : (unique_suspicious_pairs exDup).length = 1 := by decide
  have h3 : multihop_suspicion_rate exDup = 1 / 2 := by
    unfold multihop_suspicion_rate
    rw [h1, h2]
    norm_num
  refine ⟨h3, h2, by decide, ?_⟩
  rw [h3]
  norm_num

/-- C2 amended: in windowed mode the denominator of the suspicion rate is
`G.number_of_edges()`, the number of distinct (source, destination) pairs
(`total_edges`), not the number of transaction records: whenever the graph
has an edge, the rate times the distinct-pair count is exactly the number of
unique suspicious endpoint pairs. -/
theorem c2_amended (rs : List Record) (h : 0 < total_edges rs) :
    multihop_suspicion_rate rs * (total_edges rs : ℚ)
      = ((unique_suspicious_pairs rs).length : ℚ) := by
  unfold multihop_suspicion_rate
  rw [if_neg (by omega)]
  exact div_mul_cancel₀ _ (Nat.cast_ne_zero.mpr (by omega))

theorem c2_amended_witness :
    multihop_suspicion_rate exDup * (total_edges exDup : ℚ)
      = ((unique_suspicious_pairs exDup).length : ℚ) :=
  c2_amended exDup (by decide)

/-- C3 counterexample: in the chain A→B→C the shortest path from A to C has
3 nodes (hop count 3 ≥ minHopLength), yet presence mode does not qualify the
pair: `nx.shortest_path_length` counts edges (2 here), not nodes, so
`multi_hop_pairs` is empty and `multi_hop_rate` is 0, not 1/2. -/
theorem c3_counterexample :
    (shortest_path exChain "A" "C").map List.length = some 3 ∧
      ("A", "C") ∉ multi_hop_pairs exChain ∧ multi_hop_rate exChain = 0 := by
  refine ⟨by decide, by decide, ?_⟩
  have h1 : (multi_hop_pairs exChain).length = 0 := by decide
  unfold multi_hop_rate
  rw [h1, show total_edges exChain = 2 from by decide]
  norm_num

/-- C3 amended: in presence mode a pair qualifies exactly when both nodes
are in the graph, they differ, and the shortest-path EDGE count is at least
3 (that is, the path has at least 4 nodes); windowed mode keeps the 3-NODE
threshold.  In a graph with only direct connections (every defined
shortest-path distance at most 1 edge, so every shortest path has at most 2
nodes) both rates are 0. -/
theorem c3_amended :
    (∀ (rs : List Record) (s t : String),
        (s, t) ∈ multi_hop_pairs rs ↔
          s ∈ nodes rs ∧ t ∈ nodes rs ∧ s ≠ t ∧
            ∃ k, dist_opt rs s t = some k ∧ 3 ≤ k) ∧
    (∀ rs : List Record, DirectOnly rs →
        multi_hop_rate rs = 0 ∧ multihop_suspicion_rate rs = 0) := by
  constructor
  · intro rs s t
    exact mem_multi_hop_pairs
  · intro rs hd
    have hmp : multi_hop_pairs rs = [] := by
      rcases h : multi_hop_pairs rs with _ | ⟨⟨s, t⟩, rest⟩
      · rfl
      · exfalso
        have hmem : (s, t) ∈ multi_hop_pairs rs := by
          rw [h]
          exact List.mem_cons_self _ _
        obtain ⟨hs, ht, hst, k, hk, h3⟩ := mem_multi_hop_pairs.mp hmem
        have hb := hd s hs t ht
        rw [hk] at hb
        simp only [Option.getD_some] at hb
        omega
    have hsp : suspicious_paths rs = [] := by
      rcases h : suspicious_paths rs with _ | ⟨p, rest⟩
      · rfl
      · exfalso
        have hmem : p ∈ suspicious_paths rs := by
          rw [h]
          exact List.mem_cons_self _ _
        obtain ⟨src, hsrc, dst, hdst, hsd, hq, hlen, -⟩ :=
          mem_suspicious_paths.mp hmem
        obtain ⟨k, hk, hklen, -, -⟩ := shortest_path_eq_some hq
        have hb := hd src hsrc dst hdst
        rw [hk] at hb
        simp only [Option.getD_some] at hb
        omega
    constructor
    · unfold multi_hop_rate
      rw [hmp]
      split
      · rfl
      · simp
    · unfold multihop_suspicion_rate unique_suspicious_pairs
      rw [hsp]
      split
      · rfl
      · simp

theorem c3_amended_witness :
    multi_hop_rate exEdge = 0 ∧ multihop_suspicion_rate exEdge = 0 :=
  c3_amended.2 exEdge (by decide)

/-- C4 counterexample: in the chain A→B→C whose two edges are 169 hours
(7 days and 1 hour) apart, the span exceeds 7 days, yet the path is
recorded as suspicious, because `(max - min).days <= 7` floors the span to
7 whole days. -/
theorem c4_counterexample :
    ["A", "B", "C"] ∈ suspicious_paths exWin ∧
      7 * 24 < list_max (path_dates exWin ["A", "B", "C"])
          - list_min (path_dates exWin ["A", "B", "C"]) :=
  ⟨by decide, by decide⟩

/-- C4 amended: a hop-qualifying shortest path is recorded exactly when the
floor of its timestamp span in whole days is at most 7; so every recorded
path has span strictly below 8 days (192 hours), and every qualifying path
with span at most 7 days (168 hours) is recorded, but spans in between are
recorded too. -/
theorem c4_amended :
    (∀ (rs : List Record) (p : List String), p ∈ suspicious_paths rs →
        list_max (path_dates rs p) - list_min (path_dates rs p) < 8 * 24) ∧
    (∀ (rs : List Record) (src dst : String) (p : List String),
        src ∈ nodes rs → dst ∈ nodes rs → src ≠ dst →
        shortest_path rs src dst = some p → 3 ≤ p.length →
        path_dates rs p ≠ [] →
        list_max (path_dates rs p) - list_min (path_dates rs p) ≤ 7 * 24 →
        p ∈ suspicious_paths rs) := by
  constructor
  · intro rs p hp
    obtain ⟨-, -, -, -, -, hq, -, hwin⟩ := mem_suspicious_paths.mp hp
    obtain ⟨hne, hdiv⟩ := window_ok_iff.mp hwin
    have hle := list_min_le_list_max hne
    omega
  · intro rs src dst p hsrc hdst hsd hq hlen hne hspan
    refine mem_suspicious_paths.mpr ⟨src, hsrc, dst, hdst, hsd, hq, hlen, ?_⟩
    rw [window_ok_iff]
    have hle := list_min_le_list_max hne
    exact ⟨hne, by omega⟩

theorem c4_amended_witness : ["A", "B", "C"] ∈ suspicious_paths exChain :=
  c4_amended.2 exChain "A" "C" ["A", "B", "C"] (by decide) (by decide)
    (by decide) (by decide) (by decide) (by decide) (by decide)

/-- C5: `cycle_edges` is exactly the set of distinct directed edges lying on
at least one simple cycle (wrap-around edge included), and on the single
3-cycle A→B→C→A it is `(A,B), (B,C), (C,A)` with `circular_rate` 1. -/
theorem c5_cycle_edges_exact :
    (∀ (rs : List Record) (e : String × String),
        e ∈ cycle_edges rs ↔ ∃ c, IsSimpleCycle rs c ∧ e ∈ cycle_pairs c) ∧
      (cycle_edges exCycle).toFinset = {("A", "B"), ("B", "C"), ("C", "A")} ∧
      circular_rate exCycle = 1 := by
  refine ⟨fun rs e => mem_cycle_edges, by decide, ?_⟩
  unfold circular_rate
  rw [show (cycle_edges exCycle).length = 3 from by decide,
    show total_edges exCycle = 3 from by decide]
  norm_num

/-- C6 counterexample: the claim says no self-loop edge ever appears in
`cycle_edges`; but a self-loop is itself a simple cycle for
`nx.simple_cycles`, so a single self-referencing transaction A→A produces
`cycle_edges` containing (A, A) and `circular_rate` 1. -/
theorem c6_counterexample :
    ("A", "A") ∈ cycle_edges exSelf ∧ circular_rate exSelf = 1 := by
  refine ⟨by decide, ?_⟩
  unfold circular_rate
  rw [show (cycle_edges exSelf).length = 1 from by decide,
    show total_edges exSelf = 1 from by decide]
  norm_num

/-- C6 amended: self-pairs are indeed excluded from both pair-wise
reachability analyses (no (a, a) in `multi_hop_pairs` or in the backend's
suspicious pairs), but the cycle detector does keep self-loops: whenever the
graph has the edge (a, a) it appears in `cycle_edges` and so contributes to
`circular_rate`. -/
theorem c6_amended :
    (∀ (rs : List Record) (a : String),
        (a, a) ∉ multi_hop_pairs rs ∧ (a, a) ∉ unique_suspicious_pairs rs) ∧
    (∀ (rs : List Record) (a : String),
        has_edge rs a a = true → (a, a) ∈ cycle_edges rs) := by
  constructor
  · intro rs a
    constructor
    · intro h
      obtain ⟨-, -, hne, -⟩ := mem_multi_hop_pairs.mp h
      exact hne rfl
    · intro h
      unfold unique_suspicious_pairs at h
      rw [List.mem_dedup, List.mem_map] at h
      obtain ⟨p, hp, hpa⟩ := h
      obtain ⟨src, hsrc, dst, hdst, hsd, hq, -, -⟩ := mem_suspicious_paths.mp hp
      obtain ⟨k, -, -, hhead, hlast⟩ := shortest_path_eq_some hq
      obtain ⟨h1, h2⟩ : p.headD "" = a ∧ p.getLastD "" = a :=
        ⟨congrArg Prod.fst hpa, congrArg Prod.snd hpa⟩
      apply hsd
      rw [← hhead, ← hlast, h1, h2]
  · intro rs a ha
    apply mem_cycle_edges.mpr
    have hcp : cycle_pairs [a] = [(a, a)] := by
      simp [cycle_pairs, List.range_succ]
    refine ⟨[a], ⟨by simp, by simp, ?_⟩, ?_⟩
    · intro e he
      rw [hcp] at he
      simp only [List.mem_singleton] at he
      subst he
      exact ha
    · rw [hcp]
      simp

theorem c6_amended_witness :
    ("A", "A") ∉ multi_hop_pairs exSelf ∧ ("A", "A") ∈ cycle_edges exSelf :=
  ⟨(c6_amended.1 exSelf "A").1, c6_amended.2 exSelf "A" (by decide)⟩

/-- C7: the mirrored-flow detector buckets by the amount rounded
half-to-even to the nearest 100, flags buckets of size above 3, and divides
the total flagged size by the record count; on [100, 100, 100, 100, 250]
this gives 4/5 (250 rounds to the even bucket 200). -/
theorem c7_mirrored :
    (∀ rs : List Record, rs ≠ [] →
        mirrored_rate rs
          = some (((∑ b ∈ flagged_buckets rs, bucket_size rs b : ℕ) : ℚ)
              / (rs.length : ℚ))) ∧
      mirrored_rate exMirror = some (4 / 5) := by
  constructor
  · intro rs hne
    unfold mirrored_rate
    rw [if_neg (by simpa using hne), mirrored_count_eq_sum]
  · unfold mirrored_rate
    rw [show exMirror.length = 5 from by decide, mirrored_count_exMirror]
    norm_num

theorem c7_mirrored_witness :
    mirrored_rate exMirror
      = some (((∑ b ∈ flagged_buckets exMirror, bucket_size exMirror b : ℕ) : ℚ)
          / (exMirror.length : ℚ)) :=
  c7_mirrored.1 exMirror (by decide)

/-- C8: the corridor analyzer takes the top `min 15 D` of the `D` distinct
corridors sorted descending by count and divides by `D`; with exactly 15
distinct corridors the rate is 1, with 30 it is 1/2. -/
theorem c8_corridor :
    (∀ rs : List Record, 0 < (corridor_list rs).length →
        corridor_rate rs
          = some (((min 15 (corridor_list rs).length : ℕ) : ℚ)
              / ((corridor_list rs).length : ℚ))) ∧
      corridor_rate (exCorr 15) = some 1 ∧
      corridor_rate (exCorr 30) = some (1 / 2) := by
  refine ⟨?_, ?_, ?_⟩
  · intro rs h
    unfold corridor_rate
    rw [if_neg (by omega), corridor_counts_length]
  · unfold corridor_rate
    rw [show (corridor_list (exCorr 15)).length = 15 from by decide,
      show (corridor_counts (exCorr 15)).length = 15 from by decide]
    norm_num
  · unfold corridor_rate
    rw [show (corridor_list (exCorr 30)).length = 30 from by decide,
      show (corridor_counts (exCorr 30)).length = 15 from by decide]
    norm_num

theorem c8_corridor_witness :
    corridor_rate (exCorr 15)
      = some (((min 15 (corridor_list (exCorr 15)).length : ℕ) : ℚ)
          / ((corridor_list (exCorr 15)).length : ℚ)) :=
  c8_corridor.1 (exCorr 15) (by decide)

/-- C9: the claim says cycle enumeration runs under an enforced budget and
tags overruns `truncated=true`.  The code calls `list(nx.simple_cycles(G))`
with no budget at all: the enumeration always returns the complete cycle
set (every simple cycle is present in the output), never a partial or
flagged one. -/
theorem c9_enumeration_is_complete (rs : List Record) (c : List String)
    (h : IsSimpleCycle rs c) : c ∈ simple_cycles rs :=
  simple_cycles_complete h

theorem c9_enumeration_is_complete_witness :
    ["A", "B", "C"] ∈ simple_cycles exCycle :=
  c9_enumeration_is_complete exCycle ["A", "B", "C"] (by decide)

/-- C10: every edge in `cycle_edges` is an edge of the built graph, so on
any input with at least one edge `circular_rate` lies in [0, 1] and the
cycle-edge count never exceeds the total edge count. -/
theorem c10_circular_rate_bounds (rs : List Record) (h : 0 < total_edges rs) :
    0 ≤ circular_rate rs ∧ circular_rate rs ≤ 1 ∧
      (cycle_edges rs).length ≤ total_edges rs := by
  have hle := cycle_edges_length_le rs
  refine ⟨?_, ?_, hle⟩
  · unfold circular_rate
    split
    · exact le_refl 0
    · positivity
  · unfold circular_rate
    rw [if_neg (by omega)]
    rw [div_le_one (by exact_mod_cast h)]
    exact_mod_cast hle

theorem c10_circular_rate_bounds_witness :
    0 ≤ circular_rate exCycle ∧ circular_rate exCycle ≤ 1 ∧
      (cycle_edges exCycle).length ≤ total_edges exCycle :=
  c10_circular_rate_bounds exCycle (by decide)
